import Mathlib

/-!
Verification of the remote-session establishment pipeline of the
vscode-remote-mosh extension.  The definitions below are shallow embeddings of
the TypeScript sources:

* `parseMoshConnect`, `parseVsCodeServerPort` — `src/server-installer.ts`
* `parseAuthority`                            — `src/config.ts`
* `MoshClientWrapper.*`                       — `src/mosh-client.ts`
* `MoshSession.*`, `resolveStep`, handshake   — `src/extension.ts`

JavaScript regular-expression matching is modelled positionally: `scanFirst`
tries an at-position matcher at every start index from the left, which is the
leftmost-match semantics of `String.prototype.match` without the `g` flag.
-/

namespace MoshSpec

/-- The character class `[A-Za-z0-9+/=]` of the session-key capture group. -/
def base64Char (c : Char) : Bool :=
  c.isUpper || c.isLower || c.isDigit || c = '+' || c = '/' || c = '='

/-- ASCII interpretation of the JavaScript `\s` class. -/
def isSpaceJS (c : Char) : Bool :=
  c = ' ' || c = '\t' || c = '\n' || c = '\r' || c = '\x0b' || c = '\x0c'

/-- Consume the literal `lit` from the front of `s`; `none` when `s` does not
start with `lit`. -/
def dropLit : List Char → List Char → Option (List Char)
  | [], s => some s
  | _ :: _, [] => none
  | p :: ps, c :: cs => if p = c then dropLit ps cs else none

/-- Case-insensitive variant of `dropLit`, for regexes carrying the `i` flag. -/
def dropLitCI : List Char → List Char → Option (List Char)
  | [], s => some s
  | _ :: _, [] => none
  | p :: ps, c :: cs => if p.toLower = c.toLower then dropLitCI ps cs else none

/-- Leftmost-match driver: run the at-position matcher `m` at every start
position from the left and return the first success. -/
def scanFirst {α : Type} (m : List Char → Option α) : List Char → Option α
  | [] => m []
  | c :: t =>
    match m (c :: t) with
    | some r => some r
    | none => scanFirst m t

/-- The marker text `MOSH CONNECT` (without the trailing separator). -/
def mosh12 : List Char := "MOSH CONNECT".toList

/-- The literal head `MOSH CONNECT ` of the handshake regex. -/
def mosh13 : List Char := "MOSH CONNECT ".toList

/-- At-position matcher of `/MOSH CONNECT (\d+) ([A-Za-z0-9+\/=]{22,})/`:
the literal, a maximal nonempty digit run, one space, then a maximal base64
run of length at least 22.  Returns the two captures. -/
def matchMoshAt (s : List Char) : Option (List Char × List Char) :=
  match dropLit mosh13 s with
  | none => none
  | some r =>
    let ds := r.takeWhile Char.isDigit
    match r.dropWhile Char.isDigit with
    | ' ' :: r2 =>
      if ds.isEmpty then none
      else
        let ks := r2.takeWhile base64Char
        if 22 ≤ ks.length then some (ds, ks) else none
    | _ => none

/-- Decimal value of a digit run, as computed by `parseInt(·, 10)` on an
all-digit capture. -/
def digitsToNat (ds : List Char) : Nat :=
  ds.foldl (fun n c => n * 10 + (c.toNat - '0'.toNat)) 0

/-- `parseMoshConnect` from `src/server-installer.ts` (lines 415–429): leftmost
regex match, then the `udpPort <= 0 || udpPort > 65535` range rejection. -/
def parseMoshConnect (output : String) : Option (Nat × String) :=
  match scanFirst matchMoshAt output.toList with
  | none => none
  | some (ds, ks) =>
    let udpPort := digitsToNat ds
    if udpPort = 0 ∨ 65535 < udpPort then none
    else some (udpPort, String.mk ks)

/-- `startsWithCh pat s` holds when the literal `pat` is an initial segment of
`s`. -/
def startsWithCh (pat s : List Char) : Bool := (dropLit pat s).isSome

/-- `containsSeq pat s`: the literal `pat` occurs contiguously somewhere in
`s`. -/
def containsSeq (pat : List Char) : List Char → Bool
  | [] => startsWithCh pat []
  | c :: t => startsWithCh pat (c :: t) || containsSeq pat t

/-- `headFailsB p ys` holds when `ys` is empty or its first element falsifies
`p`; this is the maximality condition that stops a greedy character-class
run exactly at the start of `ys`. -/
def headFailsB (p : Char → Bool) : List Char → Bool
  | [] => true
  | y :: _ => !p y

/-- A two-marker output whose first (leftmost) `MOSH CONNECT` line carries an
out-of-range port while the second line is fully valid. -/
def moshCexOut : String :=
  "MOSH CONNECT 99999 AAAAAAAAAAAAAAAAAAAAAA==\nMOSH CONNECT 60001 BBBBBBBBBBBBBBBBBBBBBB=="

/-- Model of the regex tail `(?:127\.0\.0\.1:)?(\d+)`: the optional group is
greedy, so the engine first consumes the literal IP prefix, and backtracks to
plain digits when no digit follows it. -/
def optIpThenDigits (r : List Char) : Option (List Char) :=
  match dropLit "127.0.0.1:".toList r with
  | some r2 =>
    let ds := r2.takeWhile Char.isDigit
    if ds.isEmpty then
      let ds2 := r.takeWhile Char.isDigit
      if ds2.isEmpty then none else some ds2
    else some ds
  | none =>
    let ds2 := r.takeWhile Char.isDigit
    if ds2.isEmpty then none else some ds2

/-- At-position matcher of
`/Accepting connections at[^:]*:\s*(?:127\.0\.0\.1:)?(\d+)/i`: the `[^:]*`
run is maximal and must be followed by a colon, then optional whitespace. -/
def p1At (s : List Char) : Option (List Char) :=
  match dropLitCI "accepting connections at".toList s with
  | none => none
  | some r =>
    match r.dropWhile (fun c => c != ':') with
    | ':' :: r3 => optIpThenDigits (r3.dropWhile isSpaceJS)
    | _ => none

/-- At-position matcher of `/Extension host agent listening on (\d+)/i`. -/
def p2At (s : List Char) : Option (List Char) :=
  match dropLitCI "extension host agent listening on ".toList s with
  | none => none
  | some r =>
    let ds := r.takeWhile Char.isDigit
    if ds.isEmpty then none else some ds

/-- At-position matcher of `/Server bound to (?:127\.0\.0\.1:)?(\d+)/i`. -/
def p3At (s : List Char) : Option (List Char) :=
  match dropLitCI "server bound to ".toList s with
  | none => none
  | some r => optIpThenDigits r

/-- At-position matcher of `/listening on (?:127\.0\.0\.1:)?(\d+)/i`. -/
def p4At (s : List Char) : Option (List Char) :=
  match dropLitCI "listening on ".toList s with
  | none => none
  | some r => optIpThenDigits r

/-- At-position matcher of `/started on port (\d+)/i`. -/
def p5At (s : List Char) : Option (List Char) :=
  match dropLitCI "started on port ".toList s with
  | none => none
  | some r =>
    let ds := r.takeWhile Char.isDigit
    if ds.isEmpty then none else some ds

/-- The per-pattern body of the `parseVsCodeServerPort` loop: `parseInt` on
the capture, then the `port > 0 && port < 65536` validation; an invalid
capture counts as no hit so the loop falls through to the next pattern. -/
def portOf : Option (List Char) → Option Nat
  | none => none
  | some ds =>
    let port := digitsToNat ds
    if 0 < port ∧ port < 65536 then some port else none

/-- Hit of the `k`-th recognizer pattern of `parseVsCodeServerPort`
(`src/server-installer.ts` lines 445–451), in priority order. -/
def patternHit : Nat → String → Option Nat
  | 0, out => portOf (scanFirst p1At out.toList)
  | 1, out => portOf (scanFirst p2At out.toList)
  | 2, out => portOf (scanFirst p3At out.toList)
  | 3, out => portOf (scanFirst p4At out.toList)
  | 4, out => portOf (scanFirst p5At out.toList)
  | _ + 5, _ => none

/-- `parseVsCodeServerPort` from `src/server-installer.ts` (lines 444–464):
try the recognizer patterns in priority order, first valid hit wins. -/
def parseVsCodeServerPort (output : String) : Option Nat :=
  match patternHit 0 output with
  | some p => some p
  | none =>
    match patternHit 1 output with
    | some p => some p
    | none =>
      match patternHit 2 output with
      | some p => some p
      | none =>
        match patternHit 3 output with
        | some p => some p
        | none => patternHit 4 output

/-- `String.prototype.includes` for a single character. -/
def hasChar (ch : Char) : List Char → Bool
  | [] => false
  | c :: t => c == ch || hasChar ch t

/-- `lastIndexOf` plus the two `substring` calls: split at the last
occurrence of `ch`.  Only consulted when `ch` occurs in the list. -/
def splitAtLast (ch : Char) (l : List Char) : List Char × List Char :=
  (((l.reverse.dropWhile (fun c => c != ch)).drop 1).reverse,
   (l.reverse.takeWhile (fun c => c != ch)).reverse)

/-- `parseInt(s, 10)`: skip leading whitespace, read an optional sign and a
nonempty leading digit run; `none` models `NaN`. -/
def jsParseIntDec (s : List Char) : Option Int :=
  match s.dropWhile isSpaceJS with
  | '+' :: r =>
    let ds := r.takeWhile Char.isDigit
    if ds.isEmpty then none else some (digitsToNat ds : Int)
  | '-' :: r =>
    let ds := r.takeWhile Char.isDigit
    if ds.isEmpty then none else some (-(digitsToNat ds : Int))
  | r =>
    let ds := r.takeWhile Char.isDigit
    if ds.isEmpty then none else some (digitsToNat ds : Int)

/-- Result record of `parseAuthority`. -/
structure AuthorityParts where
  user : Option String
  host : String
  sshPort : Int
deriving DecidableEq

/-- `parseAuthority` from `src/config.ts` (lines 52–83): strip a leading
`mosh+`, split the optional user at the last `@`, then split an optional
port suffix at the last `:` with `parseInt(...) || 22`. -/
def parseAuthority (authority : String) : AuthorityParts :=
  let rest :=
    match dropLit "mosh+".toList authority.toList with
    | some r => r
    | none => authority.toList
  let user : Option String :=
    if hasChar '@' rest then some (String.mk (splitAtLast '@' rest).1) else none
  let hostWithPort : List Char :=
    if hasChar '@' rest then (splitAtLast '@' rest).2 else rest
  if hasChar ':' hostWithPort then
    { user := user, host := String.mk (splitAtLast ':' hostWithPort).1,
      sshPort :=
        match jsParseIntDec (splitAtLast ':' hostWithPort).2 with
        | some n => if n = 0 then (22 : Int) else n
        | none => 22 }
  else
    { user := user, host := String.mk hostWithPort, sshPort := 22 }

/-- Observable side effects of the transport bridge, in order of
occurrence. -/
inductive WEffect where
  | timerCancelled : WEffect
  | socketClosed : WEffect
  | codecFreed : WEffect
  | emitEnd : WEffect
  | emitClose : Bool → WEffect
  | emitData : List Nat → WEffect
  | udpSend : List Nat → WEffect
  | codecSendCall : List Nat → WEffect
  | codecRecvCall : List Nat → WEffect
  | logWarn : WEffect
  | logError : WEffect
deriving DecidableEq

/-- State of one `MoshClientWrapper` (`src/mosh-client.ts`): the `_closed`
flag, whether `_tickTimer` is armed, and the trace of side effects so far. -/
structure WrapperState where
  closed : Bool
  tickTimer : Bool
  trace : List WEffect
deriving DecidableEq

namespace MoshClientWrapper

/-- `_cleanup` (`src/mosh-client.ts` lines 367–387): guarded by `_closed`;
cancels the tick timer when one is armed, then closes the UDP socket and
frees the codec handle. -/
def cleanup (s : WrapperState) : WrapperState :=
  if s.closed then s
  else
    { closed := true, tickTimer := false,
      trace := s.trace
        ++ (if s.tickTimer then [WEffect.timerCancelled] else [])
        ++ [WEffect.socketClosed, WEffect.codecFreed] }

/-- `end()` (lines 274–281): no-op when already closed, otherwise `_cleanup`
followed by the `end` event. -/
def endCall (s : WrapperState) : WrapperState :=
  if s.closed then s
  else
    let s2 := cleanup s
    { s2 with trace := s2.trace ++ [WEffect.emitEnd] }

/-- `send(data)` (lines 256–268), parameterised by this call's codec
outcome: `ok pkts` when `sendData` returns datagrams, `error` when it
throws (the error is logged and swallowed). -/
def send (s : WrapperState) (data : List Nat)
    (codecOut : Except String (List (List Nat))) : WrapperState :=
  if s.closed then s
  else
    match codecOut with
    | Except.ok pkts =>
      { s with trace := s.trace
          ++ WEffect.codecSendCall data :: pkts.map WEffect.udpSend }
    | Except.error _ =>
      { s with trace := s.trace ++ [WEffect.codecSendCall data, WEffect.logError] }

/-- `_onUdpMessage(msg)` (lines 311–326), parameterised by the codec's
inbound-transform outcome: decoded bytes (emitted only when nonempty), or a
thrown decode error which is only logged at `warn` severity. -/
def onUdpMessage (s : WrapperState) (pkt : List Nat)
    (codecOut : Except String (List Nat)) : WrapperState :=
  if s.closed then s
  else
    match codecOut with
    | Except.ok data =>
      if 0 < data.length then
        { s with trace := s.trace
            ++ [WEffect.codecRecvCall pkt, WEffect.emitData data] }
      else
        { s with trace := s.trace ++ [WEffect.codecRecvCall pkt] }
    | Except.error _ =>
      { s with trace := s.trace ++ [WEffect.codecRecvCall pkt, WEffect.logWarn] }

/-- `_onSocketError` (lines 328–332): cleanup plus a close event carrying
the error (the emit itself is not guarded by `_closed`). -/
def onSocketError (s : WrapperState) : WrapperState :=
  let s2 := cleanup s
  { s2 with trace := s2.trace ++ [WEffect.emitClose true] }

/-- `_onSocketClose` (lines 334–340): when not yet closed, cleanup plus a
clean close event. -/
def onSocketClose (s : WrapperState) : WrapperState :=
  if s.closed then s
  else
    let s2 := cleanup s
    { s2 with trace := s2.trace ++ [WEffect.emitClose false] }

end MoshClientWrapper

/-- One `MoshSession` (`src/extension.ts` lines 333–375): the construction
options, the `_disposed` flag, the index of the currently referenced bridge
(`_client`), and the states of every bridge created so far — a bridge that
loses its reference keeps running until it closes itself. -/
structure MoshSession where
  host : String
  udpPort : Nat
  keyBase64 : String
  mtu : Nat
  disposed : Bool
  clientIdx : Option Nat
  bridges : List WrapperState
deriving DecidableEq

/-- The wrapper produced by `MoshClientWrapper.connect`: open, with the
50 ms tick timer armed, no effects yet. -/
def freshWrapper : WrapperState := ⟨false, true, []⟩

/-- Replace the element at position `i` of a bridge list. -/
def updateAt (l : List WrapperState) (i : Nat)
    (f : WrapperState → WrapperState) : List WrapperState :=
  match l, i with
  | [], _ => []
  | x :: t, 0 => f x :: t
  | x :: t, n + 1 => x :: updateAt t n f

namespace MoshSession

/-- `makeConnection()` (`src/extension.ts` lines 346–365): throws when
disposed; otherwise creates a fresh `MoshClientWrapper` and overwrites
`this._client` with it.  No call is made on the previously referenced
bridge. -/
def makeConnection (s : MoshSession) : Except String MoshSession :=
  if s.disposed then Except.error "MoshSession is already disposed"
  else
    Except.ok { s with
      bridges := s.bridges ++ [freshWrapper],
      clientIdx := some s.bridges.length }

/-- `dispose()` (lines 367–374): idempotent; ends the currently referenced
bridge (only that one) and drops the reference. -/
def dispose (s : MoshSession) : MoshSession :=
  if s.disposed then s
  else
    { s with
      disposed := true,
      clientIdx := none,
      bridges :=
        match s.clientIdx with
        | some i => updateAt s.bridges i MoshClientWrapper.endCall
        | none => s.bridges }

end MoshSession

/-- A session that currently references one live (open) bridge. -/
def cexSession : MoshSession :=
  ⟨"example.com", 60001, "4NeCCgvZFe2RnPgrcU1PQw==", 500, false, some 0,
    [⟨false, true, []⟩]⟩

/-- Mosh handshake parameters extracted from the `MOSH CONNECT` line. -/
structure HandshakeInfo where
  udpPort : Nat
  key : String
deriving DecidableEq

/-- Agent connection info (`VsCodeServerInfo` in `src/server-installer.ts`,
the spec's `AgentInfo`). -/
structure AgentInfo where
  port : Nat
  connectionToken : String
deriving DecidableEq

/-- A registered `MoshSession` stores only host, UDP port, key and MTU
(`MoshSessionOpts`, `src/extension.ts` lines 322–327); the class has no
field for agent information, so this accessor is constantly `none`. -/
def sessionAgentInfo (_ : MoshSession) : Option AgentInfo := none

/-- `Map.prototype.get` on the session registry. -/
def lookupReg (reg : List (String × MoshSession)) (a : String) :
    Option MoshSession :=
  match reg with
  | [] => none
  | p :: t => if p.1 = a then some p.2 else lookupReg t a

/-- `Map.prototype.set`: replace the existing entry in place or append. -/
def setReg (reg : List (String × MoshSession)) (a : String) (s : MoshSession) :
    List (String × MoshSession) :=
  match reg with
  | [] => [(a, s)]
  | p :: t => if p.1 = a then (a, s) :: t else p :: setReg t a s

/-- `Map.prototype.delete`. -/
def deleteReg (reg : List (String × MoshSession)) (a : String) :
    List (String × MoshSession) :=
  match reg with
  | [] => []
  | p :: t => if p.1 = a then t else p :: deleteReg t a

/-- Steps of one `resolve` call observable from outside, in order. -/
inductive REffect where
  | disposedOld : MoshSession → REffect
  | removedOld : REffect
  | handshakeStart : REffect
  | registered : String → REffect
deriving DecidableEq

/-- `MoshRemoteAuthorityResolver.resolve` (`src/extension.ts` lines 89–163),
parameterised by the outcome of `_startMoshServer`: on `attempt > 0` any
existing session for the authority is disposed and deleted, then the
handshake runs; on success a fresh session built only from the handshake
result and configuration is registered; a handshake failure propagates. -/
def resolveStep (reg : List (String × MoshSession)) (authority : String)
    (attempt : Nat) (host : String) (mtu : Nat)
    (hs : Except String HandshakeInfo) :
    List (String × MoshSession) × Except String Unit × List REffect :=
  let cleaned :=
    if 0 < attempt then
      match lookupReg reg authority with
      | some old =>
        (deleteReg reg authority,
          [REffect.disposedOld (MoshSession.dispose old), REffect.removedOld])
      | none => (reg, [])
    else (reg, [])
  let tr := cleaned.2 ++ [REffect.handshakeStart]
  match hs with
  | Except.error e => (cleaned.1, Except.error e, tr)
  | Except.ok info =>
    let s : MoshSession := ⟨host, info.udpPort, info.key, mtu, false, none, []⟩
    (setReg cleaned.1 authority s, Except.ok (),
      tr ++ [REffect.registered authority])

/-- JavaScript `String.prototype.trim` (whitespace at both ends). -/
def jsTrim (s : String) : String :=
  String.mk (((s.toList.dropWhile isSpaceJS).reverse.dropWhile isSpaceJS).reverse)

/-- Outcomes of the four remote steps consumed by `setupVsCodeServer`: the
`uname -m` probe, the `test -f` install check, the install script, and the
server start (its discovered port). -/
structure BootstrapEnv where
  unameOut : Except String String
  checkOut : Except String String
  installOut : Except String Unit
  startOut : Except String Nat

/-- `detectArchitecture` (`src/server-installer.ts` lines 63–82): map the
trimmed machine token, defaulting unknown architectures to `x64`; an
executor failure propagates. -/
def detectArchitecture (env : BootstrapEnv) : Except String String :=
  match env.unameOut with
  | Except.error e => Except.error e
  | Except.ok out =>
    let raw := jsTrim out
    Except.ok
      (if raw = "x86_64" then "x64"
       else if raw = "aarch64" ∨ raw = "arm64" then "arm64"
       else if raw = "armv7l" ∨ raw = "armv6l" then "armhf"
       else "x64")

/-- `checkVsCodeServerInstalled` (lines 95–109): any executor failure is
treated as "not installed". -/
def checkVsCodeServerInstalled (env : BootstrapEnv) : Bool :=
  match env.checkOut with
  | Except.error _ => false
  | Except.ok out => jsTrim out == "exists"

/-- `setupVsCodeServer` (lines 291–337): detect the architecture, check the
installation, install when absent, start the server; failures of detect,
install, or start propagate. -/
def setupVsCodeServer (env : BootstrapEnv) (token : String) :
    Except String AgentInfo :=
  match detectArchitecture env with
  | Except.error e => Except.error e
  | Except.ok _arch =>
    let installed := checkVsCodeServerInstalled env
    let afterInstall : Except String Unit :=
      if installed then Except.ok () else env.installOut
    match afterInstall with
    | Except.error e => Except.error e
    | Except.ok _ =>
      match env.startOut with
      | Except.error e => Except.error e
      | Except.ok port => Except.ok ⟨port, token⟩

/-- Events delivered to `_startMoshServer`'s stream callbacks; the first
component is the time (in the spec's time units) at which the event
arrives.  The code installs no timer for the scan phase, so time influences
nothing. -/
inductive HEvent where
  | data : Nat → String → HEvent
  | exit : Nat → Option Int → HEvent
  | sshError : Nat → String → HEvent
deriving DecidableEq

/-- Terminal outcomes of one `_startMoshServer` invocation. -/
inductive HOutcome where
  | success : Nat → String → HOutcome
  | exitFailure : Option Int → String → HOutcome
  | sshFail : String → HOutcome
deriving DecidableEq

/-- The inline `MOSH CONNECT` scan of `_startMoshServer`
(`src/extension.ts` line 234): the same regex as `parseMoshConnect`, but the
captured port is used with no range validation. -/
def scanMoshConnect (output : String) : Option (Nat × String) :=
  match scanFirst matchMoshAt output.toList with
  | none => none
  | some (ds, ks) => some (digitsToNat ds, String.mk ks)

/-- Scan state of `_startMoshServer`: the accumulated output and the first
terminal outcome when one has been reached (the `resolved` flag). -/
structure HState where
  output : String
  resolved : Option HOutcome
deriving DecidableEq

/-- One stream event of `_startMoshServer` (`src/extension.ts` lines
187–303): `data` always appends to the accumulated output and resolves on
the first marker match; stream close before a match rejects with the
accumulated output attached; an SSH error rejects; after the first terminal
outcome every event leaves the outcome unchanged. -/
def hstep (st : HState) (ev : HEvent) : HState :=
  match ev with
  | HEvent.data _ chunk =>
    let out2 := st.output ++ chunk
    match st.resolved with
    | some _ => { st with output := out2 }
    | none =>
      match scanMoshConnect out2 with
      | some r => { output := out2, resolved := some (HOutcome.success r.1 r.2) }
      | none => { st with output := out2 }
  | HEvent.exit _ code =>
    match st.resolved with
    | some _ => st
    | none => { st with resolved := some (HOutcome.exitFailure code st.output) }
  | HEvent.sshError _ msg =>
    match st.resolved with
    | some _ => st
    | none => { st with resolved := some (HOutcome.sshFail msg) }

/-- Run `_startMoshServer`'s scan over a whole event sequence, from the
state just after the exec callback fired. -/
def runHandshake (evs : List HEvent) : HState :=
  evs.foldl hstep ⟨"", none⟩

theorem toList_mk (l : List Char) : (String.mk l).toList = l := rfl

theorem dropLit_eq_some {lit s r : List Char} :
    dropLit lit s = some r ↔ s = lit ++ r := by
  induction lit generalizing s with
  | nil => simp [dropLit]
  | cons p ps ih =>
    cases s with
    | nil => simp [dropLit]
    | cons c cs =>
      by_cases h : p = c
      · subst h
        simp [dropLit, ih]
      · have hd : dropLit (p :: ps) (c :: cs) = none := by
          simp [dropLit, h]
        rw [hd]
        constructor
        · intro hc
          cases hc
        · intro hc
          rw [List.cons_append] at hc
          injection hc with h1 h2
          exact absurd h1.symm h

theorem startsWithCh_iff {pat s : List Char} :
    startsWithCh pat s = true ↔ ∃ r, s = pat ++ r := by
  rw [startsWithCh, Option.isSome_iff_exists]
  constructor
  · rintro ⟨r, hr⟩
    exact ⟨r, dropLit_eq_some.mp hr⟩
  · rintro ⟨r, hr⟩
    exact ⟨r, dropLit_eq_some.mpr hr⟩

theorem startsWithCh_append (pat r : List Char) : startsWithCh pat (pat ++ r) = true :=
  startsWithCh_iff.mpr ⟨r, rfl⟩

theorem containsSeq_of_startsWith {pat s : List Char}
    (h : startsWithCh pat s = true) : containsSeq pat s = true := by
  cases s with
  | nil => simpa [containsSeq] using h
  | cons c t => simp [containsSeq, h]

theorem containsSeq_mono_suffix {pat s t : List Char}
    (h : containsSeq pat s = false) (hts : t <:+ s) : containsSeq pat t = false := by
  induction s with
  | nil =>
    have : t = [] := List.suffix_nil.mp hts
    simpa [this] using h
  | cons c s ih =>
    rcases List.suffix_cons_iff.mp hts with h1 | h2
    · simpa [h1] using h
    · have h' : containsSeq pat s = false := by
        have := h
        simp only [containsSeq, Bool.or_eq_false_iff] at this
        exact this.2
      exact ih h' h2

theorem takeWhile_append_all {p : Char → Bool} {xs ys : List Char}
    (h : ∀ c ∈ xs, p c = true) (h2 : headFailsB p ys = true) :
    (xs ++ ys).takeWhile p = xs ∧ (xs ++ ys).dropWhile p = ys := by
  induction xs with
  | nil =>
    cases ys with
    | nil => simp
    | cons y t =>
      have hy : p y = false := by simpa [headFailsB] using h2
      simp [List.takeWhile_cons, List.dropWhile_cons, hy]
  | cons x xs ih =>
    have hx : p x = true := h x (by simp)
    have hrec := ih (fun c hc => h c (by simp [hc]))
    simp [List.takeWhile_cons, List.dropWhile_cons, hx, hrec.1, hrec.2]

theorem scanFirst_cons_none {α : Type} {m : List Char → Option α} {c : Char}
    {t : List Char} (h : m (c :: t) = none) :
    scanFirst m (c :: t) = scanFirst m t := by
  simp [scanFirst, h]

theorem scanFirst_eq_of_match {α : Type} {m : List Char → Option α}
    {s : List Char} {r : α} (h : m s = some r) : scanFirst m s = some r := by
  cases s with
  | nil => simpa [scanFirst] using h
  | cons c t => simp [scanFirst, h]

theorem scanFirst_append_noise {α : Type} {m : List Char → Option α}
    {pre x : List Char} (h : ∀ t, t <:+ pre → t ≠ [] → m (t ++ x) = none) :
    scanFirst m (pre ++ x) = scanFirst m x := by
  induction pre with
  | nil => simp
  | cons c pre ih =>
    have h0 : m ((c :: pre) ++ x) = none :=
      h (c :: pre) (List.suffix_refl _) (by simp)
    have step : scanFirst m ((c :: pre) ++ x) = scanFirst m (pre ++ x) := by
      rw [List.cons_append]
      exact scanFirst_cons_none (by simpa using h0)
    rw [step]
    exact ih (fun t hts htne => h t (hts.trans (List.suffix_cons c pre)) htne)

theorem scanFirst_eq_none_of_all {α : Type} {m : List Char → Option α}
    {s : List Char} (h : ∀ t, t <:+ s → m t = none) : scanFirst m s = none := by
  induction s with
  | nil => simpa [scanFirst] using h [] (List.suffix_refl _)
  | cons c t ih =>
    rw [scanFirst_cons_none (h (c :: t) (List.suffix_refl _))]
    exact ih (fun u hu => h u (hu.trans (List.suffix_cons c t)))

theorem suffix_append_cases {t a b : List Char} (h : t <:+ a ++ b) :
    t <:+ b ∨ ∃ a2, a2 <:+ a ∧ a2 ≠ [] ∧ t = a2 ++ b := by
  induction a with
  | nil => exact Or.inl (by simpa using h)
  | cons c a ih =>
    rcases List.suffix_cons_iff.mp (by simpa using h) with h1 | h2
    · exact Or.inr ⟨c :: a, List.suffix_refl _, by simp, by simpa using h1⟩
    · rcases ih h2 with h3 | ⟨a2, h4, h5, h6⟩
      · exact Or.inl h3
      · exact Or.inr ⟨a2, h4.trans (List.suffix_cons c a), h5, h6⟩

theorem matchMoshAt_some_start {t : List Char} {p : List Char × List Char}
    (h : matchMoshAt t = some p) : ∃ r, t = mosh13 ++ r := by
  rw [matchMoshAt] at h
  cases hd : dropLit mosh13 t with
  | none => rw [hd] at h; exact absurd h (by simp)
  | some r => exact ⟨r, dropLit_eq_some.mp hd⟩

/-- A nonempty chunk of marker-free noise followed by the marker line cannot
produce an at-position match: the regex's leftmost match is not inside the
noise. -/
theorem matchMoshAt_noise {t rest : List Char} (ht : t ≠ [])
    (hnc : containsSeq mosh12 t = false) :
    matchMoshAt (t ++ (mosh13 ++ rest)) = none := by
  have h13 : mosh13 = mosh12 ++ [' '] := by decide
  have hM : mosh13 = 'M' :: "OSH CONNECT ".toList := by decide
  have hdrop : dropLit mosh13 (t ++ (mosh13 ++ rest)) = none := by
    cases hd : dropLit mosh13 (t ++ (mosh13 ++ rest)) with
    | none => rfl
    | some r =>
      exfalso
      have heq : t ++ (mosh13 ++ rest) = mosh13 ++ r := dropLit_eq_some.mp hd
      rcases List.append_eq_append_iff.mp heq with ⟨a2, ha1, ha2⟩ | ⟨c2, hc1, _⟩
      · cases a2 with
        | nil =>
          have hteq : t = mosh13 := by simpa using ha1.symm
          have : containsSeq mosh12 t = true := by
            apply containsSeq_of_startsWith
            rw [hteq, h13]
            exact startsWithCh_append _ _
          simp [this] at hnc
        | cons y a2t =>
          have hy : y = 'M' := by
            have h1 : (mosh13 ++ rest).head? = some 'M' := by rw [hM]; rfl
            rw [ha2] at h1
            simpa using h1
          have hlen13 : mosh13.length = 13 := by decide
          have hlen : t.length + (a2t.length + 1) = 13 := by
            have := congrArg List.length ha1
            simpa [List.length_append, Nat.add_comm] using this.symm
          have htpos : 0 < t.length := List.length_pos.mpr ht
          have hdropa : y :: a2t = mosh13.drop t.length := by
            rw [ha1, List.drop_left]
          have hhd : (mosh13.drop t.length).head? = some 'M' := by
            rw [← hdropa, hy]
            rfl
          have hno : ∀ k, k < 13 → 0 < k → (mosh13.drop k).head? ≠ some 'M' := by decide
          exact hno t.length (by omega) htpos hhd
      · have : containsSeq mosh12 t = true := by
          apply containsSeq_of_startsWith
          rw [hc1, h13, List.append_assoc]
          exact startsWithCh_append _ _
        simp [this] at hnc
  rw [matchMoshAt, hdrop]

theorem scan_skips_noise {pre rest : List Char}
    (hpre : containsSeq mosh12 pre = false) :
    scanFirst matchMoshAt (pre ++ (mosh13 ++ rest))
      = scanFirst matchMoshAt (mosh13 ++ rest) :=
  scanFirst_append_noise
    (fun t hts htne => matchMoshAt_noise htne (containsSeq_mono_suffix hpre hts))

theorem matchMoshAt_marker (ds key suf : List Char) (hds : ds ≠ [])
    (hdsd : ∀ c ∈ ds, c.isDigit = true)
    (hkey : ∀ c ∈ key, base64Char c = true)
    (hsuf : headFailsB base64Char suf = true) :
    matchMoshAt (mosh13 ++ (ds ++ ' ' :: (key ++ suf)))
      = if 22 ≤ key.length then some (ds, key) else none := by
  have e1 : dropLit mosh13 (mosh13 ++ (ds ++ ' ' :: (key ++ suf)))
      = some (ds ++ ' ' :: (key ++ suf)) := dropLit_eq_some.mpr rfl
  have hsp : headFailsB Char.isDigit (' ' :: (key ++ suf)) = true := by
    simp [headFailsB, Char.isDigit]
  have e2 := takeWhile_append_all hdsd hsp
  have e4 := takeWhile_append_all hkey hsuf
  have hne : ds.isEmpty = false := by
    cases ds with
    | nil => exact absurd rfl hds
    | cons a b => rfl
  rw [matchMoshAt, e1]
  simp only [e2.1, e2.2, hne, Bool.false_eq_true, if_false, e4.1]

/-- Claim C1 (amended): `parseMoshConnect` is decided by the leftmost
`MOSH CONNECT <digits> <base64-run>` candidate of the output.  Part one: when
the text before the marker contains no occurrence of `MOSH CONNECT`, the digit
run is nonempty, the key run has length at least 22 and is delimited on the
right, then the parser returns exactly that port and key when
`1 ≤ port ≤ 65535`, and `none` when the captured port is `0` or above `65535`
(even though a later valid marker line may follow inside `suf`).  Part two:
when the only candidate's key run is shorter than 22 characters the parser
returns `none`. -/
theorem parseMoshConnect_leftmost_decides :
    (∀ pre ds key suf : List Char,
      containsSeq mosh12 pre = false →
      ds ≠ [] → (∀ c ∈ ds, c.isDigit = true) →
      (∀ c ∈ key, base64Char c = true) → 22 ≤ key.length →
      headFailsB base64Char suf = true →
      ((1 ≤ digitsToNat ds → digitsToNat ds ≤ 65535 →
          parseMoshConnect (String.mk (pre ++ (mosh13 ++ (ds ++ ' ' :: (key ++ suf)))))
            = some (digitsToNat ds, String.mk key)) ∧
       (digitsToNat ds = 0 ∨ 65535 < digitsToNat ds →
          parseMoshConnect (String.mk (pre ++ (mosh13 ++ (ds ++ ' ' :: (key ++ suf)))))
            = none))) ∧
    (∀ pre ds key : List Char,
      containsSeq mosh12 pre = false →
      ds ≠ [] → (∀ c ∈ ds, c.isDigit = true) →
      (∀ c ∈ key, base64Char c = true) → key.length < 22 →
      parseMoshConnect (String.mk (pre ++ (mosh13 ++ (ds ++ ' ' :: key)))) = none) := by
  constructor
  · intro pre ds key suf hpre hds hdsd hkey hklen hsuf
    have hscan : scanFirst matchMoshAt (pre ++ (mosh13 ++ (ds ++ ' ' :: (key ++ suf))))
        = some (ds, key) := by
      rw [scan_skips_noise hpre]
      apply scanFirst_eq_of_match
      rw [matchMoshAt_marker ds key suf hds hdsd hkey hsuf, if_pos hklen]
    constructor
    · intro h1 h2
      have hno : ¬(digitsToNat ds = 0 ∨ 65535 < digitsToNat ds) := by omega
      simp only [parseMoshConnect, toList_mk, hscan]
      simp [hno]
    · intro h
      simp only [parseMoshConnect, toList_mk, hscan]
      simp [h]
  · intro pre ds key hpre hds hdsd hkey hklt
    have hM : mosh13 = 'M' :: "OSH CONNECT ".toList := by decide
    have hhead : matchMoshAt (mosh13 ++ (ds ++ ' ' :: key)) = none := by
      have hrw : ds ++ ' ' :: key = ds ++ ' ' :: (key ++ ([] : List Char)) := by simp
      rw [hrw, matchMoshAt_marker ds key [] hds hdsd hkey rfl, if_neg (by omega)]
    have htail : scanFirst matchMoshAt ("OSH CONNECT ".toList ++ (ds ++ ' ' :: key))
        = none := by
      apply scanFirst_eq_none_of_all
      intro t hts
      cases hmt : matchMoshAt t with
      | none => rfl
      | some p =>
        exfalso
        obtain ⟨r, hr⟩ := matchMoshAt_some_start hmt
        have hthead : t.head? = some 'M' := by
          rw [hr, hM]
          rfl
        rcases suffix_append_cases hts with h1 | ⟨a2, ha2s, ha2ne, ha2eq⟩
        · rcases suffix_append_cases h1 with h2 | ⟨d2, hd2s, hd2ne, hd2eq⟩
          · rcases List.suffix_cons_iff.mp h2 with h3 | h4
            · rw [h3] at hthead
              cases hthead
            · have hsp : (' ' : Char) ∈ t := by
                rw [hr]
                exact List.mem_append_left _ (by decide)
              have hspk : (' ' : Char) ∈ key := h4.subset hsp
              have := hkey ' ' hspk
              simp [base64Char] at this
          · cases d2 with
            | nil => exact absurd rfl hd2ne
            | cons y d2t =>
              have hy : y = 'M' := by
                rw [hd2eq] at hthead
                simpa using hthead
              have hmem : y ∈ ds := hd2s.subset (by simp)
              have := hdsd y hmem
              rw [hy] at this
              simp [Char.isDigit] at this
        · cases a2 with
          | nil => exact absurd rfl ha2ne
          | cons z zt =>
            have hz : z = 'M' := by
              rw [ha2eq] at hthead
              simpa using hthead
            obtain ⟨u, hu⟩ := ha2s
            have hdz : z :: zt = "OSH CONNECT ".toList.drop u.length := by
              rw [← hu, List.drop_left]
            have h12 : ("OSH CONNECT ".toList).length = 12 := by decide
            have hlen : u.length + (zt.length + 1) = 12 := by
              have hln := congrArg List.length hu
              rw [List.length_append, h12] at hln
              simpa using hln
            have hno : ∀ k, k < 12 → ("OSH CONNECT ".toList.drop k).head? ≠ some 'M' := by
              decide
            apply hno u.length (by omega)
            rw [← hdz, hz]
            rfl
    have hsc : scanFirst matchMoshAt (pre ++ (mosh13 ++ (ds ++ ' ' :: key))) = none := by
      rw [scan_skips_noise hpre]
      have hcons : mosh13 ++ (ds ++ ' ' :: key)
          = 'M' :: ("OSH CONNECT ".toList ++ (ds ++ ' ' :: key)) := by
        rw [hM]
        rfl
      rw [hcons, scanFirst_cons_none (by rw [← hcons]; exact hhead), htail]
    simp only [parseMoshConnect, toList_mk, hsc]

/-- Claim C1, counterexample: `moshCexOut` contains the line
`MOSH CONNECT 60001 BBBBBBBBBBBBBBBBBBBBBB==` whose port is in `1..65535`
and whose key has 24 base64 characters, yet `parseMoshConnect` returns
`none` because the leftmost match (port 99999) is rejected; the claim as
stated demands `some (60001, key)` here. -/
theorem parseMoshConnect_cex :
    parseMoshConnect moshCexOut = none ∧
    moshCexOut.toList
      = "MOSH CONNECT 99999 AAAAAAAAAAAAAAAAAAAAAA==\n".toList
          ++ (mosh13 ++ ("60001".toList ++ ' ' :: "BBBBBBBBBBBBBBBBBBBBBB==".toList)) ∧
    (∀ c ∈ "BBBBBBBBBBBBBBBBBBBBBB==".toList, base64Char c = true) ∧
    22 ≤ "BBBBBBBBBBBBBBBBBBBBBB==".toList.length ∧
    1 ≤ digitsToNat "60001".toList ∧ digitsToNat "60001".toList ≤ 65535 :=
  ⟨by decide, by decide, by decide, by decide, by decide, by decide⟩

/-- Witness for `parseMoshConnect_leftmost_decides` at a concrete output with
leading noise, CR/LF and a trailing line. -/
theorem parseMoshConnect_leftmost_decides_witness :
    parseMoshConnect (String.mk ("mosh-server starting\r\n".toList
        ++ (mosh13 ++ ("60001".toList
              ++ ' ' :: ("4NeCCgvZFe2RnPgrcU1PQw==".toList ++ "\r\n".toList)))))
      = some (60001, String.mk "4NeCCgvZFe2RnPgrcU1PQw==".toList) := by
  have h := (parseMoshConnect_leftmost_decides.1 "mosh-server starting\r\n".toList
      "60001".toList "4NeCCgvZFe2RnPgrcU1PQw==".toList "\r\n".toList
      (by decide) (by decide) (by decide) (by decide) (by decide) (by decide)).1
      (by decide) (by decide)
  have hv : digitsToNat "60001".toList = 60001 := by decide
  rw [hv] at h
  exact h

/-- Claim C3: the agent-port scan is order-sensitive.  If pattern `i` of the
priority list hits with an in-range port and some later pattern `j > i` also
hits, and no pattern before `i` hits, then `parseVsCodeServerPort` returns
the port captured by pattern `i` — the pattern earliest in the priority
list — whatever the positional order of the matches inside the text. -/
theorem parseVsCodeServerPort_priority (output : String) (i j pi pj : Nat)
    (hij : i < j) (hi : patternHit i output = some pi)
    (hj : patternHit j output = some pj)
    (hmin : ∀ k, k < i → patternHit k output = none) :
    parseVsCodeServerPort output = some pi := by
  have hj5 : j ≤ 4 := by
    by_contra hc
    obtain ⟨m, rfl⟩ : ∃ m, j = m + 5 := ⟨j - 5, by omega⟩
    have hzn : patternHit (m + 5) output = none := rfl
    rw [hzn] at hj
    cases hj
  have hi0 : 0 ≤ i := Nat.zero_le i
  have hi4 : i ≤ 3 := by omega
  interval_cases i
  · simp [parseVsCodeServerPort, hi]
  · simp [parseVsCodeServerPort, hmin 0 (by omega), hi]
  · simp [parseVsCodeServerPort, hmin 0 (by omega), hmin 1 (by omega), hi]
  · simp [parseVsCodeServerPort, hmin 0 (by omega), hmin 1 (by omega),
      hmin 2 (by omega), hi]

/-- Witness for `parseVsCodeServerPort_priority`: the `Server bound to`
match occurs first positionally, yet the `Extension host agent` pattern
(earlier in the priority list) wins. -/
theorem parseVsCodeServerPort_priority_witness :
    parseVsCodeServerPort
      "Server bound to 9000 then Extension host agent listening on 8080"
      = some 8080 := by
  apply parseVsCodeServerPort_priority
      "Server bound to 9000 then Extension host agent listening on 8080"
      1 2 8080 9000 (by omega) (by decide) (by decide)
  intro k hk
  have hk0 : k = 0 := by omega
  subst hk0
  decide

theorem hasChar_append {ch : Char} (a b : List Char) :
    hasChar ch (a ++ b) = (hasChar ch a || hasChar ch b) := by
  induction a with
  | nil => simp [hasChar]
  | cons x t ih => simp [hasChar, ih, Bool.or_assoc]

theorem hasChar_false_forall {ch : Char} {l : List Char}
    (h : hasChar ch l = false) : ∀ c ∈ l, (c != ch) = true := by
  induction l with
  | nil => intro c hc; cases hc
  | cons x t ih =>
    simp only [hasChar, Bool.or_eq_false_iff] at h
    intro c hc
    rcases List.mem_cons.mp hc with h1 | h2
    · subst h1
      simp only [bne_iff_ne, ne_eq]
      intro hce
      rw [hce] at h
      simp at h
    · exact ih h.2 c h2

theorem splitAtLast_append {ch : Char} {a b : List Char}
    (hb : hasChar ch b = false) : splitAtLast ch (a ++ ch :: b) = (a, b) := by
  unfold splitAtLast
  have hrev : (a ++ ch :: b).reverse = b.reverse ++ ch :: a.reverse := by
    simp [List.reverse_append]
  have hall : ∀ c ∈ b.reverse, (c != ch) = true := by
    intro c hc
    exact hasChar_false_forall hb c (List.mem_reverse.mp hc)
  have h2 : headFailsB (fun c => c != ch) (ch :: a.reverse) = true := by
    simp [headFailsB]
  have ht := takeWhile_append_all hall h2
  rw [hrev, ht.1, ht.2]
  simp

/-- Claim C10: for authorities `mosh+user@hostPort`, when the host portion
carries no `:` suffix the parser falls back to SSH port 22; with a suffix
after the last `:`, a `parseInt` result of `NaN` or `0` also falls back to
22, while any nonzero integer is returned as-is; the user is everything
before the last `@`. -/
theorem parseAuthority_port_fallback :
    (∀ user hostPort : List Char,
      hasChar '@' hostPort = false → hasChar ':' hostPort = false →
      parseAuthority (String.mk ("mosh+".toList ++ (user ++ '@' :: hostPort)))
        = ⟨some (String.mk user), String.mk hostPort, 22⟩) ∧
    (∀ user host sfx : List Char,
      hasChar '@' host = false → hasChar '@' sfx = false →
      hasChar ':' sfx = false →
      ((jsParseIntDec sfx = none ∨ jsParseIntDec sfx = some 0 →
         parseAuthority
             (String.mk ("mosh+".toList ++ (user ++ '@' :: (host ++ ':' :: sfx))))
           = ⟨some (String.mk user), String.mk host, 22⟩) ∧
       (∀ n : Int, n ≠ 0 → jsParseIntDec sfx = some n →
         parseAuthority
             (String.mk ("mosh+".toList ++ (user ++ '@' :: (host ++ ':' :: sfx))))
           = ⟨some (String.mk user), String.mk host, n⟩))) := by
  constructor
  · intro user hostPort hat hcol
    have hstrip : dropLit "mosh+".toList ("mosh+".toList ++ (user ++ '@' :: hostPort))
        = some (user ++ '@' :: hostPort) := dropLit_eq_some.mpr rfl
    have hhat : hasChar '@' (user ++ '@' :: hostPort) = true := by
      rw [hasChar_append]
      simp [hasChar]
    have hsplit : splitAtLast '@' (user ++ '@' :: hostPort) = (user, hostPort) :=
      splitAtLast_append hat
    simp only [parseAuthority, toList_mk, hstrip, hhat, hsplit, if_true, hcol,
      Bool.false_eq_true, if_false]
  · intro user host sfx hath hats hcol
    have hstrip : dropLit "mosh+".toList
        ("mosh+".toList ++ (user ++ '@' :: (host ++ ':' :: sfx)))
        = some (user ++ '@' :: (host ++ ':' :: sfx)) := dropLit_eq_some.mpr rfl
    have hhat : hasChar '@' (user ++ '@' :: (host ++ ':' :: sfx)) = true := by
      rw [hasChar_append]
      simp [hasChar]
    have hatsuf : hasChar '@' (host ++ ':' :: sfx) = false := by
      rw [hasChar_append]
      simp [hasChar, hath, hats]
    have hsplit : splitAtLast '@' (user ++ '@' :: (host ++ ':' :: sfx))
        = (user, host ++ ':' :: sfx) := splitAtLast_append hatsuf
    have hcolon : hasChar ':' (host ++ ':' :: sfx) = true := by
      rw [hasChar_append]
      simp [hasChar]
    have hsplit2 : splitAtLast ':' (host ++ ':' :: sfx) = (host, sfx) :=
      splitAtLast_append hcol
    constructor
    · intro hp
      rcases hp with hp | hp
      · simp only [parseAuthority, toList_mk, hstrip, hhat, hsplit, if_true,
          hcolon, hsplit2, hp]
      · simp only [parseAuthority, toList_mk, hstrip, hhat, hsplit, if_true,
          hcolon, hsplit2, hp]
    · intro n hn hp
      simp only [parseAuthority, toList_mk, hstrip, hhat, hsplit, if_true,
        hcolon, hsplit2, hp]
      simp [hn]

/-- Witness for `parseAuthority_port_fallback`: no port suffix, suffix `:0`,
and suffix `:2222`. -/
theorem parseAuthority_port_fallback_witness :
    parseAuthority (String.mk ("mosh+".toList
        ++ ("alice".toList ++ '@' :: "example.com".toList)))
      = ⟨some (String.mk "alice".toList), String.mk "example.com".toList, 22⟩ ∧
    parseAuthority (String.mk ("mosh+".toList
        ++ ("alice".toList ++ '@' :: ("example.com".toList ++ ':' :: "0".toList))))
      = ⟨some (String.mk "alice".toList), String.mk "example.com".toList, 22⟩ ∧
    parseAuthority (String.mk ("mosh+".toList
        ++ ("alice".toList ++ '@' :: ("example.com".toList ++ ':' :: "2222".toList))))
      = ⟨some (String.mk "alice".toList), String.mk "example.com".toList, 2222⟩ := by
  refine ⟨parseAuthority_port_fallback.1 "alice".toList "example.com".toList
      (by decide) (by decide), ?_, ?_⟩
  · exact (parseAuthority_port_fallback.2 "alice".toList "example.com".toList
      "0".toList (by decide) (by decide) (by decide)).1 (Or.inr (by decide))
  · exact (parseAuthority_port_fallback.2 "alice".toList "example.com".toList
      "2222".toList (by decide) (by decide) (by decide)).2 2222 (by decide) (by decide)

theorem trace_shift_onUdp (a b : WrapperState) (hcb : a.closed = b.closed)
    (pkt : List Nat) (out : Except String (List Nat)) :
    (MoshClientWrapper.onUdpMessage a pkt out).trace.drop a.trace.length
      = (MoshClientWrapper.onUdpMessage b pkt out).trace.drop b.trace.length := by
  unfold MoshClientWrapper.onUdpMessage
  rw [← hcb]
  by_cases ha : a.closed = true
  · simp [ha, List.drop_length]
  · have ha' : a.closed = false := by simpa using ha
    cases out with
    | error e => simp [ha', List.drop_left]
    | ok data => by_cases hd : 0 < data.length <;> simp [ha', hd, List.drop_left]

theorem trace_shift_send (a b : WrapperState) (hcb : a.closed = b.closed)
    (d : List Nat) (out : Except String (List (List Nat))) :
    (MoshClientWrapper.send a d out).trace.drop a.trace.length
      = (MoshClientWrapper.send b d out).trace.drop b.trace.length := by
  unfold MoshClientWrapper.send
  rw [← hcb]
  by_cases ha : a.closed = true
  · simp [ha, List.drop_length]
  · have ha' : a.closed = false := by simpa using ha
    cases out with
    | error e => simp [ha', List.drop_left]
    | ok pkts => simp [ha', List.drop_left]

/-- Claim C6: from an open bridge, `end()` performs the teardown side
effects exactly once — the tick timer is cancelled (once, when armed), the
UDP socket is closed once, the codec handle is released once, the `end`
event is emitted once — and `end()` is idempotent, so any later call is a
no-op. -/
theorem endCall_idempotent_teardown_once (s : WrapperState)
    (h : s.closed = false) :
    MoshClientWrapper.endCall (MoshClientWrapper.endCall s)
      = MoshClientWrapper.endCall s ∧
    (MoshClientWrapper.endCall s).trace
      = s.trace ++ (if s.tickTimer then [WEffect.timerCancelled] else [])
          ++ [WEffect.socketClosed, WEffect.codecFreed, WEffect.emitEnd] ∧
    (MoshClientWrapper.endCall s).closed = true := by
  have h1 : MoshClientWrapper.endCall s
      = ⟨true, false,
          (s.trace ++ (if s.tickTimer then [WEffect.timerCancelled] else [])
            ++ [WEffect.socketClosed, WEffect.codecFreed]) ++ [WEffect.emitEnd]⟩ := by
    simp [MoshClientWrapper.endCall, MoshClientWrapper.cleanup, h]
  refine ⟨?_, ?_, ?_⟩
  · rw [h1]
    simp [MoshClientWrapper.endCall]
  · rw [h1]
    simp
  · rw [h1]

/-- Witness for `endCall_idempotent_teardown_once` on a fresh open bridge
with an armed tick timer. -/
theorem endCall_idempotent_teardown_once_witness :
    MoshClientWrapper.endCall (MoshClientWrapper.endCall ⟨false, true, []⟩)
      = MoshClientWrapper.endCall ⟨false, true, []⟩ ∧
    (MoshClientWrapper.endCall ⟨false, true, []⟩).trace
      = ([] : List WEffect) ++ (if true then [WEffect.timerCancelled] else [])
          ++ [WEffect.socketClosed, WEffect.codecFreed, WEffect.emitEnd] ∧
    (MoshClientWrapper.endCall ⟨false, true, []⟩).closed = true :=
  endCall_idempotent_teardown_once ⟨false, true, []⟩ rfl

/-- Claim C9: once a bridge is closed — by `end()`, a socket error, or an
unexpected socket closure — every subsequent `send` is a complete no-op: it
returns the state unchanged, so no codec transform is invoked, no datagram
is sent, nothing is logged or thrown, and all fields are untouched. -/
theorem send_after_closed_noop (s : WrapperState) (d : List Nat)
    (out : Except String (List (List Nat))) :
    (s.closed = true → MoshClientWrapper.send s d out = s) ∧
    MoshClientWrapper.send (MoshClientWrapper.endCall s) d out
      = MoshClientWrapper.endCall s ∧
    MoshClientWrapper.send (MoshClientWrapper.onSocketError s) d out
      = MoshClientWrapper.onSocketError s ∧
    MoshClientWrapper.send (MoshClientWrapper.onSocketClose s) d out
      = MoshClientWrapper.onSocketClose s := by
  have hs : ∀ w : WrapperState, w.closed = true →
      MoshClientWrapper.send w d out = w := by
    intro w hw
    simp [MoshClientWrapper.send, hw]
  refine ⟨hs s, ?_, ?_, ?_⟩
  · apply hs
    by_cases h : s.closed = true <;>
      simp [MoshClientWrapper.endCall, MoshClientWrapper.cleanup, h]
  · apply hs
    by_cases h : s.closed = true <;>
      simp [MoshClientWrapper.onSocketError, MoshClientWrapper.cleanup, h]
  · apply hs
    by_cases h : s.closed = true <;>
      simp [MoshClientWrapper.onSocketClose, MoshClientWrapper.cleanup, h]

/-- Witness for `send_after_closed_noop` on an already-closed bridge and on
a bridge closed by each of the three closure routes. -/
theorem send_after_closed_noop_witness :
    MoshClientWrapper.send ⟨true, false, []⟩ [1, 2] (Except.ok [[3]])
      = ⟨true, false, []⟩ ∧
    MoshClientWrapper.send (MoshClientWrapper.endCall ⟨false, true, []⟩) [1, 2]
        (Except.ok [[3]])
      = MoshClientWrapper.endCall ⟨false, true, []⟩ ∧
    MoshClientWrapper.send (MoshClientWrapper.onSocketError ⟨false, true, []⟩) [1, 2]
        (Except.ok [[3]])
      = MoshClientWrapper.onSocketError ⟨false, true, []⟩ ∧
    MoshClientWrapper.send (MoshClientWrapper.onSocketClose ⟨false, true, []⟩) [1, 2]
        (Except.ok [[3]])
      = MoshClientWrapper.onSocketClose ⟨false, true, []⟩ := by
  have h0 := send_after_closed_noop ⟨true, false, []⟩ [1, 2] (Except.ok [[3]])
  have h1 := send_after_closed_noop ⟨false, true, []⟩ [1, 2] (Except.ok [[3]])
  exact ⟨h0.1 rfl, h1.2.1, h1.2.2.1, h1.2.2.2⟩

/-- Claim C8: a datagram on which the codec's inbound transform throws
leaves the bridge open: the state stays unclosed with the tick timer
untouched, the only new effects are the codec call and a low-severity log
entry (no close event, no teardown), and subsequent datagrams and `send`
calls append exactly the effects they would have appended without the
failed decode. -/
theorem decode_error_keeps_open (s : WrapperState) (pkt : List Nat)
    (e : String) (h : s.closed = false) :
    (MoshClientWrapper.onUdpMessage s pkt (Except.error e)).closed = false ∧
    (MoshClientWrapper.onUdpMessage s pkt (Except.error e)).tickTimer
      = s.tickTimer ∧
    (MoshClientWrapper.onUdpMessage s pkt (Except.error e)).trace
      = s.trace ++ [WEffect.codecRecvCall pkt, WEffect.logWarn] ∧
    (∀ pkt2 out2,
      (MoshClientWrapper.onUdpMessage
          (MoshClientWrapper.onUdpMessage s pkt (Except.error e)) pkt2 out2).trace.drop
            (MoshClientWrapper.onUdpMessage s pkt (Except.error e)).trace.length
        = (MoshClientWrapper.onUdpMessage s pkt2 out2).trace.drop s.trace.length) ∧
    (∀ d out2,
      (MoshClientWrapper.send
          (MoshClientWrapper.onUdpMessage s pkt (Except.error e)) d out2).trace.drop
            (MoshClientWrapper.onUdpMessage s pkt (Except.error e)).trace.length
        = (MoshClientWrapper.send s d out2).trace.drop s.trace.length) := by
  have hs : MoshClientWrapper.onUdpMessage s pkt (Except.error e)
      = { s with trace := s.trace ++ [WEffect.codecRecvCall pkt, WEffect.logWarn] } := by
    simp [MoshClientWrapper.onUdpMessage, h]
  refine ⟨?_, ?_, ?_, ?_, ?_⟩
  · rw [hs]
    exact h
  · rw [hs]
  · rw [hs]
  · intro pkt2 out2
    rw [hs]
    exact trace_shift_onUdp
      { s with trace := s.trace ++ [WEffect.codecRecvCall pkt, WEffect.logWarn] }
      s rfl pkt2 out2
  · intro d out2
    rw [hs]
    exact trace_shift_send
      { s with trace := s.trace ++ [WEffect.codecRecvCall pkt, WEffect.logWarn] }
      s rfl d out2

/-- Witness for `decode_error_keeps_open` on a concrete open bridge,
including one follow-up datagram processed identically. -/
theorem decode_error_keeps_open_witness :
    (MoshClientWrapper.onUdpMessage ⟨false, true, []⟩ [7] (Except.error "bad")).closed
      = false ∧
    (MoshClientWrapper.onUdpMessage
        (MoshClientWrapper.onUdpMessage ⟨false, true, []⟩ [7] (Except.error "bad"))
        [8] (Except.ok [5])).trace.drop
          (MoshClientWrapper.onUdpMessage ⟨false, true, []⟩ [7]
            (Except.error "bad")).trace.length
      = (MoshClientWrapper.onUdpMessage ⟨false, true, []⟩ [8]
          (Except.ok [5])).trace.drop
            (WrapperState.mk false true []).trace.length := by
  have h := decode_error_keeps_open ⟨false, true, []⟩ [7] "bad" rfl
  exact ⟨h.1, h.2.2.2.1 [8] (Except.ok [5])⟩

/-- Claim C5, counterexample: `cexSession` holds a live bridge (index 0);
`makeConnection` succeeds and replaces the reference, yet the held bridge is
still open afterwards with an empty effect trace — no end/cleanup was
performed on it, refuting "any previously created bridge that the Session
still holds is torn down before the new one replaces it". -/
theorem makeConnection_leak_cex :
    MoshSession.makeConnection cexSession
      = Except.ok { cexSession with
                    bridges := [⟨false, true, []⟩, freshWrapper],
                    clientIdx := some 1 } ∧
    ({ cexSession with
       bridges := [⟨false, true, []⟩, freshWrapper],
       clientIdx := some 1 } : MoshSession).bridges.head?
      = some ⟨false, true, []⟩ ∧
    (⟨false, true, []⟩ : WrapperState).closed = false ∧
    (⟨false, true, []⟩ : WrapperState).trace = [] :=
  ⟨rfl, rfl, rfl, rfl⟩

/-- Claim C5 (amended): `makeConnection` on an undisposed session creates
the new bridge and replaces the session's reference with it, leaving every
previously created bridge — including the one still referenced — entirely
untouched (no teardown is performed on it); only the reference is single. -/
theorem makeConnection_no_teardown (s : MoshSession) (h : s.disposed = false) :
    MoshSession.makeConnection s
      = Except.ok { s with
                    bridges := s.bridges ++ [freshWrapper],
                    clientIdx := some s.bridges.length } ∧
    ∀ i, i < s.bridges.length →
      (s.bridges ++ [freshWrapper]).get? i = s.bridges.get? i := by
  constructor
  · simp [MoshSession.makeConnection, h]
  · intro i hi
    exact List.get?_append hi

/-- Witness for `makeConnection_no_teardown` on `cexSession`. -/
theorem makeConnection_no_teardown_witness :
    MoshSession.makeConnection cexSession
      = Except.ok { cexSession with
                    bridges := cexSession.bridges ++ [freshWrapper],
                    clientIdx := some cexSession.bridges.length } ∧
    (cexSession.bridges ++ [freshWrapper]).get? 0 = cexSession.bridges.get? 0 := by
  have h := makeConnection_no_teardown cexSession rfl
  exact ⟨h.1, h.2 0 (by decide)⟩

theorem lookup_set (reg : List (String × MoshSession)) (a : String)
    (s : MoshSession) : lookupReg (setReg reg a s) a = some s := by
  induction reg with
  | nil => simp [setReg, lookupReg]
  | cons p t ih =>
    by_cases h : p.1 = a
    · simp [setReg, lookupReg, h]
    · simp [setReg, lookupReg, h, ih]

theorem lookup_none_of_not_mem {reg : List (String × MoshSession)} {a : String}
    (h : a ∉ reg.map Prod.fst) : lookupReg reg a = none := by
  induction reg with
  | nil => rfl
  | cons p t ih =>
    simp only [List.map_cons, List.mem_cons] at h
    push_neg at h
    have hne : ¬p.1 = a := fun hc => h.1 hc.symm
    simp [lookupReg, hne, ih h.2]

theorem deleteReg_sublist (reg : List (String × MoshSession)) (a : String) :
    (deleteReg reg a).Sublist reg := by
  induction reg with
  | nil => simp [deleteReg]
  | cons p t ih =>
    by_cases h : p.1 = a
    · simp only [deleteReg, if_pos h]
      exact (List.sublist_cons_self p t)
    · simp only [deleteReg, if_neg h]
      exact ih.cons₂ p

theorem lookup_delete_nodup {reg : List (String × MoshSession)} {a : String}
    (hnd : (reg.map Prod.fst).Nodup) :
    lookupReg (deleteReg reg a) a = none := by
  induction reg with
  | nil => rfl
  | cons p t ih =>
    simp only [List.map_cons, List.nodup_cons] at hnd
    by_cases h : p.1 = a
    · simp only [deleteReg, if_pos h]
      apply lookup_none_of_not_mem
      rw [← h]
      exact hnd.1
    · simp only [deleteReg, if_neg h]
      simp [lookupReg, h, ih hnd.2]

theorem mem_keys_set {reg : List (String × MoshSession)} {a b : String}
    {s : MoshSession} (h : b ∈ (setReg reg a s).map Prod.fst) :
    b ∈ reg.map Prod.fst ∨ b = a := by
  induction reg with
  | nil =>
    simp only [setReg, List.map_cons, List.map_nil, List.mem_singleton] at h
    exact Or.inr h
  | cons p t ih =>
    by_cases hp : p.1 = a
    · simp only [setReg, if_pos hp, List.map_cons, List.mem_cons] at h
      rcases h with h | h
      · exact Or.inr h
      · exact Or.inl (by simp [h])
    · simp only [setReg, if_neg hp, List.map_cons, List.mem_cons] at h
      rcases h with h | h
      · exact Or.inl (by simp [h])
      · rcases ih h with h2 | h2
        · exact Or.inl (by simp [h2])
        · exact Or.inr h2

theorem nodup_set {reg : List (String × MoshSession)} {a : String}
    {s : MoshSession} (hnd : (reg.map Prod.fst).Nodup) :
    ((setReg reg a s).map Prod.fst).Nodup := by
  induction reg with
  | nil => simp [setReg]
  | cons p t ih =>
    simp only [List.map_cons, List.nodup_cons] at hnd
    by_cases hp : p.1 = a
    · simp only [setReg, if_pos hp, List.map_cons, List.nodup_cons]
      exact ⟨by rw [← hp]; exact hnd.1, hnd.2⟩
    · simp only [setReg, if_neg hp, List.map_cons, List.nodup_cons]
      refine ⟨?_, ih hnd.2⟩
      intro hc
      rcases mem_keys_set hc with h2 | h2
      · exact hnd.1 h2
      · exact hp h2

/-- Claim C7: a resolve call with `attempt > 0` on an authority whose
registry entry is a live session disposes that session and removes the
entry before the handshake starts (the effect trace begins with the
disposal and removal, then `handshakeStart`); with nodup keys on entry the
registry keeps at most one session per authority key, and on handshake
success the authority maps to the freshly registered session. -/
theorem resolve_reconnect_disposes
    (reg : List (String × MoshSession)) (authority host : String)
    (attempt mtu : Nat) (old : MoshSession) (hs : Except String HandshakeInfo)
    (hatt : 0 < attempt) (hold : lookupReg reg authority = some old)
    (hnd : (reg.map Prod.fst).Nodup) :
    (resolveStep reg authority attempt host mtu hs).2.2
      = REffect.disposedOld (MoshSession.dispose old) :: REffect.removedOld ::
          REffect.handshakeStart ::
          (match hs with
           | Except.ok _ => [REffect.registered authority]
           | Except.error _ => []) ∧
    (MoshSession.dispose old).disposed = true ∧
    lookupReg (deleteReg reg authority) authority = none ∧
    ((resolveStep reg authority attempt host mtu hs).1.map Prod.fst).Nodup ∧
    (∀ info, hs = Except.ok info →
      lookupReg (resolveStep reg authority attempt host mtu hs).1 authority
        = some ⟨host, info.udpPort, info.key, mtu, false, none, []⟩) := by
  have hdel := (deleteReg_sublist reg authority).map Prod.fst
  have hnd2 : ((deleteReg reg authority).map Prod.fst).Nodup := hnd.sublist hdel
  have hstep : resolveStep reg authority attempt host mtu hs
      = (let cleaned := (deleteReg reg authority,
            [REffect.disposedOld (MoshSession.dispose old), REffect.removedOld])
         let tr := cleaned.2 ++ [REffect.handshakeStart]
         match hs with
         | Except.error e => (cleaned.1, Except.error e, tr)
         | Except.ok info =>
           let s : MoshSession :=
             ⟨host, info.udpPort, info.key, mtu, false, none, []⟩
           (setReg cleaned.1 authority s, Except.ok (),
             tr ++ [REffect.registered authority])) := by
    unfold resolveStep
    rw [if_pos hatt, hold]
  refine ⟨?_, ?_, lookup_delete_nodup hnd, ?_, ?_⟩
  · rw [hstep]
    cases hs <;> rfl
  · by_cases h : old.disposed
    · simp [MoshSession.dispose, h]
    · simp [MoshSession.dispose, h]
  · rw [hstep]
    cases hs with
    | error e => exact hnd2
    | ok info => exact nodup_set hnd2
  · intro info hinfo
    subst hinfo
    rw [hstep]
    exact lookup_set _ _ _

/-- Witness for `resolve_reconnect_disposes`: a one-entry registry, a
reconnect attempt, and a successful handshake. -/
theorem resolve_reconnect_disposes_witness :
    (resolveStep [("mosh+alice@example.com", cexSession)] "mosh+alice@example.com"
        1 "example.com" 500 (Except.ok ⟨60001, "4NeCCgvZFe2RnPgrcU1PQw=="⟩)).2.2
      = REffect.disposedOld (MoshSession.dispose cexSession) :: REffect.removedOld ::
          REffect.handshakeStart :: [REffect.registered "mosh+alice@example.com"] ∧
    (MoshSession.dispose cexSession).disposed = true ∧
    lookupReg (resolveStep [("mosh+alice@example.com", cexSession)]
        "mosh+alice@example.com" 1 "example.com" 500
        (Except.ok ⟨60001, "4NeCCgvZFe2RnPgrcU1PQw=="⟩)).1 "mosh+alice@example.com"
      = some ⟨"example.com", 60001, "4NeCCgvZFe2RnPgrcU1PQw==", 500, false, none, []⟩ := by
  have h := resolve_reconnect_disposes [("mosh+alice@example.com", cexSession)]
    "mosh+alice@example.com" "example.com" 1 500 cexSession
    (Except.ok ⟨60001, "4NeCCgvZFe2RnPgrcU1PQw=="⟩)
    (by omega) (by simp [lookupReg]) (by simp)
  exact ⟨h.1, h.2.1, h.2.2.2.2 ⟨60001, "4NeCCgvZFe2RnPgrcU1PQw=="⟩ rfl⟩

/-- Claim C4: when the control channel is up and the handshake yields a
result, a failing agent-bootstrap sequence (`setupVsCodeServer`) never
reaches the resolve result: resolve succeeds and registers a session, and a
registered session carries no agent information at all (its type has no
such field) — in fact `resolve` (`src/extension.ts` lines 89–163) does not
invoke the bootstrap sequence, so its outcome cannot propagate. -/
theorem resolve_bootstrap_failure_nonfatal
    (reg : List (String × MoshSession)) (authority host : String)
    (attempt mtu : Nat) (info : HandshakeInfo)
    (benv : BootstrapEnv) (token msg : String)
    (hb : setupVsCodeServer benv token = Except.error msg) :
    (resolveStep reg authority attempt host mtu (Except.ok info)).2.1
      = Except.ok () ∧
    lookupReg (resolveStep reg authority attempt host mtu (Except.ok info)).1
        authority
      = some ⟨host, info.udpPort, info.key, mtu, false, none, []⟩ ∧
    sessionAgentInfo ⟨host, info.udpPort, info.key, mtu, false, none, []⟩
      = none := by
  refine ⟨rfl, ?_, rfl⟩
  exact lookup_set _ _ _

/-- Witness for `resolve_bootstrap_failure_nonfatal`: the handshake of the
spec's scenario (`port 60001`) with a bootstrap whose server start throws. -/
theorem resolve_bootstrap_failure_nonfatal_witness :
    (resolveStep [] "mosh+alice@example.com" 0 "example.com" 500
        (Except.ok ⟨60001, "4NeCCgvZFe2RnPgrcU1PQw=="⟩)).2.1 = Except.ok () ∧
    lookupReg (resolveStep [] "mosh+alice@example.com" 0 "example.com" 500
        (Except.ok ⟨60001, "4NeCCgvZFe2RnPgrcU1PQw=="⟩)).1 "mosh+alice@example.com"
      = some ⟨"example.com", 60001, "4NeCCgvZFe2RnPgrcU1PQw==", 500, false, none, []⟩ ∧
    sessionAgentInfo
        ⟨"example.com", 60001, "4NeCCgvZFe2RnPgrcU1PQw==", 500, false, none, []⟩
      = none := by
  have hb : setupVsCodeServer
      ⟨Except.ok "x86_64\n", Except.ok "missing\n", Except.ok (),
        Except.error "server start failed"⟩ "tok"
      = Except.error "server start failed" := rfl
  exact resolve_bootstrap_failure_nonfatal [] "mosh+alice@example.com"
    "example.com" 0 500 ⟨60001, "4NeCCgvZFe2RnPgrcU1PQw=="⟩
    ⟨Except.ok "x86_64\n", Except.ok "missing\n", Except.ok (),
      Except.error "server start failed"⟩ "tok" "server start failed" hb

theorem hstep_resolved {st : HState} {o : HOutcome} (h : st.resolved = some o)
    (ev : HEvent) : (hstep st ev).resolved = some o := by
  cases ev with
  | data t chunk => simp [hstep, h]
  | exit t code => simp [hstep, h]
  | sshError t msg => simp [hstep, h]

theorem foldl_resolved {o : HOutcome} (extra : List HEvent) :
    ∀ st : HState, st.resolved = some o →
      (extra.foldl hstep st).resolved = some o := by
  induction extra with
  | nil => intro st h; exact h
  | cons e t ih => intro st h; exact ih (hstep st e) (hstep_resolved h e)

/-- Claim C2, counterexample: a handshake invocation that receives only
non-marker output, the last chunk arriving 100000 time units in — far past
the claimed ~30-unit budget — has reached no terminal outcome at all: the
scan phase of `_startMoshServer` arms no timer, so no `Timeout` failure
exists, contradicting "reaches exactly one terminal outcome within a fixed
~30-time-unit budget". -/
theorem handshake_no_timeout_cex :
    (runHandshake [HEvent.data 10 "mosh: starting\r\n",
        HEvent.data 100000 "still no marker"]).resolved = none ∧ 30 < 100000 :=
  ⟨by decide, by decide⟩

/-- Claim C2 (amended): the handshake step reaches at most one terminal
outcome, by exactly two scan-phase routes: once resolved, any further
events leave the outcome unchanged (first terminal signal wins); a marker
match in the newly accumulated output resolves with the parsed port and
key; and process exit before a match is a hard failure carrying the
accumulated output.  No timeout route exists: with neither a marker nor an
exit, no terminal outcome is ever reached, whatever the elapsed time. -/
theorem handshake_terminal_outcomes :
    (∀ (evs extra : List HEvent) (o : HOutcome),
      (runHandshake evs).resolved = some o →
      (runHandshake (evs ++ extra)).resolved = some o) ∧
    (∀ (evs : List HEvent) (t : Nat) (chunk : String) (p : Nat) (k : String),
      (runHandshake evs).resolved = none →
      scanMoshConnect ((runHandshake evs).output ++ chunk) = some (p, k) →
      (runHandshake (evs ++ [HEvent.data t chunk])).resolved
        = some (HOutcome.success p k)) ∧
    (∀ (evs : List HEvent) (t : Nat) (code : Option Int),
      (runHandshake evs).resolved = none →
      (runHandshake (evs ++ [HEvent.exit t code])).resolved
        = some (HOutcome.exitFailure code (runHandshake evs).output)) := by
  refine ⟨?_, ?_, ?_⟩
  · intro evs extra o h
    rw [runHandshake, List.foldl_append]
    exact foldl_resolved extra (runHandshake evs) h
  · intro evs t chunk p k h1 h2
    rw [runHandshake, List.foldl_append]
    show (hstep (runHandshake evs) (HEvent.data t chunk)).resolved = _
    rw [hstep]
    simp only [h1, h2]
  · intro evs t code h1
    rw [runHandshake, List.foldl_append]
    show (hstep (runHandshake evs) (HEvent.exit t code)).resolved = _
    rw [hstep]
    simp only [h1]

/-- Witness for `handshake_terminal_outcomes`: stability after a success,
resolution on a concrete marker chunk, and a hard failure on exit after
junk-only output. -/
theorem handshake_terminal_outcomes_witness :
    (runHandshake ([HEvent.data 0 "\r\nMOSH CONNECT 60001 4NeCCgvZFe2RnPgrcU1PQw==\r\n"]
        ++ [HEvent.data 1 "late noise"])).resolved
      = some (HOutcome.success 60001 "4NeCCgvZFe2RnPgrcU1PQw==") ∧
    (runHandshake ([HEvent.data 0 "junk "]
        ++ [HEvent.data 2 "\r\nMOSH CONNECT 60001 4NeCCgvZFe2RnPgrcU1PQw==\r\n"])).resolved
      = some (HOutcome.success 60001 "4NeCCgvZFe2RnPgrcU1PQw==") ∧
    (runHandshake ([HEvent.data 0 "mosh-server: command not found\n"]
        ++ [HEvent.exit 1 (some 127)])).resolved
      = some (HOutcome.exitFailure (some 127)
          (runHandshake [HEvent.data 0 "mosh-server: command not found\n"]).output) := by
  refine ⟨?_, ?_, ?_⟩
  · exact handshake_terminal_outcomes.1
      [HEvent.data 0 "\r\nMOSH CONNECT 60001 4NeCCgvZFe2RnPgrcU1PQw==\r\n"]
      [HEvent.data 1 "late noise"]
      (HOutcome.success 60001 "4NeCCgvZFe2RnPgrcU1PQw==") (by decide)
  · exact handshake_terminal_outcomes.2.1 [HEvent.data 0 "junk "] 2
      "\r\nMOSH CONNECT 60001 4NeCCgvZFe2RnPgrcU1PQw==\r\n" 60001
      "4NeCCgvZFe2RnPgrcU1PQw==" (by decide) (by decide)
  · exact handshake_terminal_outcomes.2.2
      [HEvent.data 0 "mosh-server: command not found\n"] 1 (some 127) (by decide)

/-- Cross-check of the embedded parsers against the expectations of the
repository's own unit tests (`mosh-parse.test.ts` and
`server-installer.test.ts`). -/
theorem parsers_match_repo_tests :
    parseMoshConnect "\r\nMOSH CONNECT 60001 4NeCCgvZFe2RnPgrcU1PQw==\r\n"
      = some (60001, "4NeCCgvZFe2RnPgrcU1PQw==") ∧
    parseMoshConnect "MOSH CONNECT 60001 shortkey" = none ∧
    parseMoshConnect "MOSH CONNECT 0 4NeCCgvZFe2RnPgrcU1PQw==" = none ∧
    parseMoshConnect "MOSH CONNECT 99999 4NeCCgvZFe2RnPgrcU1PQw==" = none ∧
    parseMoshConnect "some random output" = none ∧
    parseVsCodeServerPort "** Accepting connections at: 127.0.0.1:39423"
      = some 39423 ∧
    parseVsCodeServerPort "** Accepting connections at: 54321" = some 54321 ∧
    parseVsCodeServerPort "Extension host agent listening on 8080" = some 8080 ∧
    parseVsCodeServerPort "Server bound to 127.0.0.1:9000" = some 9000 ∧
    parseVsCodeServerPort "VS Code server listening on 7654" = some 7654 ∧
    parseVsCodeServerPort "Server started on port 3000" = some 3000 ∧
    parseVsCodeServerPort "listening on 99999" = none ∧
    parseVsCodeServerPort "listening on 0" = none ∧
    parseVsCodeServerPort "Starting VS Code Server..." = none := by
  refine ⟨?_, ?_, ?_, ?_, ?_, ?_, ?_, ?_, ?_, ?_, ?_, ?_, ?_, ?_⟩ <;> decide

end MoshSpec
